import Mathlib

/-!
Shallow embedding of the bindle helper library (packages strutil, uploads,
jsonx) and proofs about it.

Go strings are modelled as lists of characters (`List Char`); Go `int` /
`int64` values as `Int`.  The Unicode-aware Go case folding
(strings.ToLower / strings.EqualFold) is modelled by its ASCII case table,
which is the fragment exercised by the library.  I/O steps of the upload
path (directory creation, stream open/read/seek, content sniffing, random
suffix generation, file create/copy) are modelled by an explicit
environment record carrying each step's outcome, and a Go panic is
modelled by `Option.none` in the result type of the operation that can
panic.
-/

namespace Bindle

/-- ASCII case mapping of a single character: the fragment of Go's
unicode.ToLower used by strings.ToLower on the library's inputs. -/
def goLower (c : Char) : Char :=
  if 65 ≤ c.toNat ∧ c.toNat ≤ 90 then Char.ofNat (c.toNat + 32) else c

/-- Character set removed by FormatFilename's first regular expression,
from strutil.go: backslash, slash, colon, asterisk, question mark, double
quote, angle brackets, pipe. -/
def filenameBadChars : List Char := ['\\', '/', ':', '*', '?', '\"', '<', '>', '|']

/-- Space-to-underscore replacement step of FormatFilename
(strings.ReplaceAll(output, " ", "_")). -/
def replaceSpaces (l : List Char) : List Char :=
  l.map (fun c => if c = ' ' then '_' else c)

/-- Removal of the path-unsafe characters of FormatFilename
(regexp [\\/:*?"<>|] replaced by the empty string). -/
def stripBad (l : List Char) : List Char :=
  l.filter (fun c => decide (c ∉ filenameBadChars))

/-- Collapse of each maximal run of underscores to a single underscore,
the effect of FormatFilename's regexp replacement of _+ by _. -/
def squeezeUnd : List Char → List Char
  | [] => []
  | [c] => [c]
  | a :: b :: rest =>
    if a = '_' ∧ b = '_' then squeezeUnd (b :: rest)
    else a :: squeezeUnd (b :: rest)

/-- Removal of leading and trailing underscores, the effect of
strings.Trim(output, "_") in FormatFilename. -/
def trimUnd (l : List Char) : List Char :=
  (((l.dropWhile (fun c => decide (c = '_'))).reverse.dropWhile
      (fun c => decide (c = '_'))).reverse)

/-- Sanitation pipeline of strutil.FormatFilename before the empty-result
fallback: lower-case, replace spaces with underscores, strip the unsafe
character set, collapse repeated underscores, trim leading and trailing
underscores. -/
def formatFilenameCore (input : List Char) : List Char :=
  trimUnd (squeezeUnd (stripBad (replaceSpaces (input.map goLower))))

/-- strutil.FormatFilename: the sanitation pipeline, falling back to the
fixed placeholder "file" when everything was stripped. -/
def formatFilename (input : List Char) : List Char :=
  if formatFilenameCore input = [] then "file".toList else formatFilenameCore input

/-- Relation holding between adjacent characters of a string with no two
consecutive underscores. -/
def notUU (a b : Char) : Prop := ¬(a = '_' ∧ b = '_')

/-- strutil.Truncate.  Go compares the byte length of s with max and, in
the long case, slices s[:max]; a negative max makes that slice expression
panic, which the model renders as `none`. -/
def Truncate (s : List Char) (max : Int) : Option (List Char) :=
  if (s.length : Int) ≤ max then some s
  else if 0 ≤ max then some (s.take max.toNat ++ "...".toList)
  else none

/-- Helper for goExt: scans the reversed path, accumulating characters of
the candidate extension, and stops at the final dot of the final
slash-separated element (no extension when a separator or the start of the
string is reached first). -/
def goExtAux : List Char → List Char → List Char
  | [], _ => []
  | c :: rest, acc =>
    if c = '/' then []
    else if c = '.' then '.' :: acc
    else goExtAux rest (c :: acc)

/-- filepath.Ext: the suffix beginning at the final dot in the final
slash-separated element of the path; empty when there is no dot. -/
def goExt (s : List Char) : List Char := goExtAux s.reverse []

/-- strings.TrimSuffix: removes the given suffix when present, otherwise
returns the string unchanged. -/
def goTrimSuffix (s suf : List Char) : List Char :=
  if suf <:+ s then s.take (s.length - suf.length) else s

/-- Extension as computed in SaveUploadedFile: strings.ToLower applied to
filepath.Ext, then the leading dot removed when non-empty. -/
def extNoDot (name : List Char) : List Char :=
  match (goExt name).map goLower with
  | [] => []
  | _ :: t => t

/-- strings.EqualFold restricted to the ASCII case table: both strings
lower-cased and compared. -/
def goEqualFold (a b : List Char) : Bool := decide (a.map goLower = b.map goLower)

/-- uploads.FileUploadOptions.  AllowedMimeTypes keeps the Go nil/non-nil
slice distinction (the code tests it against nil), as Option; AllowedExts
is only ever tested through len(), where nil and empty coincide. -/
structure FileUploadOptions where
  destinationDir : List Char
  maxSize : Int
  allowedExts : List (List Char)
  allowedMimeTypes : Option (List (List Char))
  filenamePrefix : List Char
  randomizeFilename : Bool
deriving DecidableEq

/-- uploads.DefaultOptions. -/
def defaultUploadOptions : FileUploadOptions where
  destinationDir := "uploads".toList
  maxSize := 10 * 1024 * 1024
  allowedExts := ["jpg".toList, "jpeg".toList, "png".toList, "gif".toList, "pdf".toList]
  allowedMimeTypes := some ["image/jpeg".toList, "image/png".toList,
    "image/gif".toList, "application/pdf".toList]
  filenamePrefix := []
  randomizeFilename := false

/-- multipart.FileHeader as used by SaveUploadedFile: client-supplied
filename, declared size, and the declared Content-Type header value. -/
structure FileHeader where
  filename : List Char
  size : Int
  declaredMime : List Char
deriving DecidableEq

/-- uploads.SavedFile. -/
structure SavedFile where
  originalName : List Char
  savedName : List Char
  savedPath : List Char
  size : Int
  mimeType : List Char
deriving DecidableEq

/-- Outcomes of the I/O steps performed by SaveUploadedFile, abstracted:
success of os.MkdirAll, random.Generate (with the suffix it would
produce), file.Open, the 512-byte header read, the Seek back to start,
the MIME type sniffed by http.DetectContentType, and os.Create / io.Copy. -/
structure UploadEnv where
  mkdirOk : Bool
  randomOk : Bool
  randomSuffix : List Char
  openOk : Bool
  readOk : Bool
  seekOk : Bool
  sniffedMime : List Char
  createOk : Bool
  copyOk : Bool
deriving DecidableEq

/-- Errors returned by the upload helpers: the three sentinel errors plus
the wrapped I/O failures, the dynamic unsupported-MIME-type error, and
SaveMultipleFormFiles' no-files error. -/
inductive UploadErr
  | emptyFile
  | fileTooLarge
  | invalidFileType
  | mkdirFailed
  | randomFailed
  | openFailed
  | readFailed
  | seekFailed
  | unsupportedMime (mime : List Char)
  | createFailed
  | copyFailed
  | noFilesUploaded
deriving DecidableEq

deriving instance DecidableEq for Except

/-- Result of SaveUploadedFile together with whether the directory
creation (os.MkdirAll) and the destination-file creation (os.Create) were
reached before returning. -/
structure SaveOutcome where
  result : Except UploadErr SavedFile
  dirAttempted : Bool
  fileAttempted : Bool
deriving DecidableEq

/-- Extension allow-list check of SaveUploadedFile: with a non-empty list
the extension must match some entry under EqualFold; an empty list skips
the check. -/
def extOK (name : List Char) (allowed : List (List Char)) : Bool :=
  if 0 < allowed.length then allowed.any (fun a => goEqualFold (extNoDot name) a)
  else true

/-- MIME check of SaveUploadedFile: a non-nil AllowedMimeTypes slice is a
prefix allow-list over the sniffed type; a nil slice falls back to the
built-in policy accepting image/ prefixes, application/pdf exactly, and
text/ prefixes. -/
def mimeOK (allowed : Option (List (List Char))) (mt : List Char) : Bool :=
  match allowed with
  | some lst => lst.any (fun p => p.isPrefixOf mt)
  | none =>
    "image/".toList.isPrefixOf mt || decide (mt = "application/pdf".toList) ||
      "text/".toList.isPrefixOf mt

/-- Destination filename derivation of SaveUploadedFile before
sanitization: the base name (original minus extension) optionally
prefixed with FilenamePrefix and an underscore; with randomization the
random suffix and the lower-cased extension are appended, without it the
original filename is used verbatim. -/
def destFileNameOf (opts : FileUploadOptions) (origFileName : List Char)
    (suffix : List Char) : List Char :=
  let baseFileName0 := goTrimSuffix origFileName (goExt origFileName)
  let baseFileName :=
    if opts.filenamePrefix ≠ [] then opts.filenamePrefix ++ '_' :: baseFileName0
    else baseFileName0
  if opts.randomizeFilename then
    baseFileName ++ '_' :: suffix ++ '.' :: extNoDot origFileName
  else origFileName

/-- Tail of uploads.SaveUploadedFile from the MkdirAll call onward:
directory creation, filename derivation (random.Generate may fail),
destination path as destination dir joined with the sanitized name,
source open / header read / seek, MIME check on the sniffed type,
os.Create and io.Copy, and finally the descriptor carrying the declared
(not sniffed) MIME type. -/
def savePhase2 (file : FileHeader) (opts : FileUploadOptions)
    (env : UploadEnv) : SaveOutcome :=
  if env.mkdirOk = false then ⟨.error .mkdirFailed, true, false⟩
  else if opts.randomizeFilename = true ∧ env.randomOk = false then
    ⟨.error .randomFailed, true, false⟩
  else
    let destName := formatFilename (destFileNameOf opts file.filename env.randomSuffix)
    let destPath := opts.destinationDir ++ '/' :: destName
    if env.openOk = false then ⟨.error .openFailed, true, false⟩
    else if env.readOk = false then ⟨.error .readFailed, true, false⟩
    else if env.seekOk = false then ⟨.error .seekFailed, true, false⟩
    else if mimeOK opts.allowedMimeTypes env.sniffedMime = false then
      ⟨.error (.unsupportedMime env.sniffedMime), true, false⟩
    else if env.createOk = false then ⟨.error .createFailed, true, true⟩
    else if env.copyOk = false then ⟨.error .copyFailed, true, true⟩
    else ⟨.ok ⟨file.filename, destName, destPath, file.size, file.declaredMime⟩,
      true, true⟩

/-- uploads.SaveUploadedFile, with the I/O step outcomes supplied by the
environment record: empty-size check, default options substitution when
the options pointer is nil, size-limit check, extension check, and then
the I/O tail savePhase2. -/
def saveUploadedFile (file : FileHeader) (optsIn : Option FileUploadOptions)
    (env : UploadEnv) : SaveOutcome :=
  if file.size = 0 then ⟨.error .emptyFile, false, false⟩
  else
    let opts := optsIn.getD defaultUploadOptions
    if opts.maxSize < file.size then ⟨.error .fileTooLarge, false, false⟩
    else if extOK file.filename opts.allowedExts = false then
      ⟨.error .invalidFileType, false, false⟩
    else savePhase2 file opts env

/-- Accumulator of the SaveMultipleFormFiles loop: the result slice built
so far (nil descriptors included) and the batch's files currently on
disk. -/
structure MultiAcc where
  savedFiles : List (Option SavedFile)
  disk : List (List Char)
deriving DecidableEq

/-- One iteration of the SaveMultipleFormFiles loop over one save result.
On success the descriptor and its path are appended.  On failure the code
iterates over every accumulated descriptor and dereferences its SavedPath
to remove it from disk: when some earlier entry is nil that dereference
panics (modelled as none); otherwise the removal happens and a nil
descriptor is appended, the loop continuing either way. -/
def multiStep (acc : MultiAcc) (r : Except UploadErr SavedFile) : Option MultiAcc :=
  match r with
  | .ok sf => some ⟨acc.savedFiles ++ [some sf], acc.disk ++ [sf.savedPath]⟩
  | .error _ =>
    if acc.savedFiles.all Option.isSome then
      some ⟨acc.savedFiles ++ [none],
        acc.disk.filter (fun p =>
          decide (p ∉ acc.savedFiles.filterMap (fun o => o.map SavedFile.savedPath)))⟩
    else none

/-- Loop of SaveMultipleFormFiles over the per-file save results. -/
def multiLoop (rs : List (Except UploadErr SavedFile)) : Option MultiAcc :=
  rs.foldlM multiStep ⟨[], []⟩

/-- uploads.SaveMultipleFormFiles: error when the field has no files,
otherwise the loop over each file's SaveUploadedFile result; on the
non-panicking path the function returns the accumulated slice and a nil
error (the per-file errors are swallowed). -/
def saveMultipleFormFiles (files : List (FileHeader × UploadEnv))
    (optsIn : Option FileUploadOptions) :
    Option (List (Option SavedFile) × List (List Char) × Option UploadErr) :=
  if files = [] then some ([], [], some .noFilesUploaded)
  else
    match multiLoop (files.map (fun fe => (saveUploadedFile fe.1 optsIn fe.2).result)) with
    | some acc => some (acc.savedFiles, acc.disk, none)
    | none => none

/-- Sample file handle: a one-byte text file named doc.txt. -/
def fileDoc : FileHeader := ⟨"doc.txt".toList, 1, "text/plain".toList⟩

/-- Sample file handle with declared size zero. -/
def fileEmpty : FileHeader := ⟨"a.txt".toList, 0, "text/plain".toList⟩

/-- Sample environment in which every I/O step succeeds and the sniffed
type is text/plain. -/
def envAllOk : UploadEnv :=
  ⟨true, true, "abcd1234".toList, true, true, true, "text/plain".toList, true, true⟩

/-- Sample configuration with no restrictions beyond a 100-byte limit. -/
def optsPlain : FileUploadOptions := ⟨"d".toList, 100, [], none, [], false⟩

/-- Sample non-randomized configuration with filename prefix "up". -/
def optsPrefixed : FileUploadOptions := ⟨"d".toList, 100, [], none, "up".toList, false⟩

/-- Sample configuration allowing only the jpg extension. -/
def optsJpgOnly : FileUploadOptions := ⟨"d".toList, 100, ["jpg".toList], none, [], false⟩

/-- Sample configuration whose MaxSize field is left at its zero value. -/
def optsZeroMax : FileUploadOptions := ⟨"d".toList, 0, [], none, [], false⟩

/-- Sample configuration with a non-nil but empty MIME allow-list. -/
def optsEmptyMime : FileUploadOptions := ⟨"d".toList, 100, [], some [], [], false⟩

/-- Saved-file descriptor produced for fileDoc under optsPlain or
optsPrefixed in envAllOk. -/
def savedDoc : SavedFile :=
  ⟨"doc.txt".toList, "doc.txt".toList, "d/doc.txt".toList, 1, "text/plain".toList⟩

/-- jsonx.Options.  Headers keeps the Go nil/non-nil map distinction, as
Option. -/
structure JsonxOptions where
  successStatus : Int
  errorStatus : Int
  contentType : List Char
  allowEmpty : Bool
  enforceContentType : Bool
  headers : Option (List (List Char × List Char))
  indentResponse : Bool
  escapeHTML : Bool
deriving DecidableEq

/-- jsonx.DefaultOptions. -/
def jsonxDefaultOptions : JsonxOptions where
  successStatus := 200
  errorStatus := 400
  contentType := "application/json".toList
  allowEmpty := true
  enforceContentType := true
  headers := some []
  indentResponse := false
  escapeHTML := false

/-- jsonx.mergeOptions: with no custom options the defaults are returned;
otherwise the first custom value overrides the defaults field by field
(statuses only when non-zero, content type only when non-empty, headers
only when non-nil, the four booleans unconditionally), after which
non-positive statuses are clamped to 200 and 400. -/
def mergeOptions (defaults : JsonxOptions) (customs : List JsonxOptions) : JsonxOptions :=
  match customs with
  | [] => defaults
  | custom :: _ =>
    let r1 : JsonxOptions :=
      { successStatus :=
          if custom.successStatus ≠ 0 then custom.successStatus
          else defaults.successStatus
        errorStatus :=
          if custom.errorStatus ≠ 0 then custom.errorStatus else defaults.errorStatus
        contentType :=
          if custom.contentType ≠ [] then custom.contentType else defaults.contentType
        allowEmpty := custom.allowEmpty
        enforceContentType := custom.enforceContentType
        headers := if custom.headers ≠ none then custom.headers else defaults.headers
        indentResponse := custom.indentResponse
        escapeHTML := custom.escapeHTML }
    let r2 : JsonxOptions :=
      { r1 with successStatus := if r1.successStatus ≤ 0 then 200 else r1.successStatus }
    { r2 with errorStatus := if r2.errorStatus ≤ 0 then 400 else r2.errorStatus }

/-- Shape of the decode target as classified by DecodeJSON's reflection
test: a nil interface value, a non-pointer value, a nil pointer, or a
valid non-nil pointer. -/
inductive TargetKind
  | nilInterface
  | nonPointer
  | nilPointer
  | validPointer
deriving DecidableEq

/-- Outcome of the underlying json.Decoder.Decode call on the stream:
end of input before any token, any other parse failure, or success. -/
inductive DecodeOutcome
  | eofBeforeToken
  | parseFailure
  | decoded
deriving DecidableEq

/-- Sentinel errors of the jsonx package. -/
inductive JsonxErr
  | invalidJSON
  | invalidTarget
  | noContent
  | unsupportedMediaType
deriving DecidableEq

/-- jsonx.DecodeJSON: the target's shape is checked by reflection before
any byte of the stream is consumed (so the outcome is ignored for bad
targets); for a valid pointer target the decoder's io.EOF is classified
as NoContent, any other failure as InvalidJSON, success as nil. -/
def DecodeJSON (target : TargetKind) (outcome : DecodeOutcome) : Option JsonxErr :=
  match target with
  | .nilInterface => some .invalidTarget
  | .nonPointer => some .invalidTarget
  | .nilPointer => some .invalidTarget
  | .validPointer =>
    match outcome with
    | .eofBeforeToken => some .noContent
    | .parseFailure => some .invalidJSON
    | .decoded => none

end Bindle

namespace Bindle

theorem toNat_ofNat_valid (n : Nat) (h : n.isValidChar) :
    (Char.ofNat n).toNat = n := by
  simp [Char.ofNat, dif_pos h, Char.ofNatAux, Char.toNat, UInt32.toNat,
    BitVec.toNat_ofNatLt]

theorem goLower_goLower (c : Char) : goLower (goLower c) = goLower c := by
  unfold goLower
  by_cases h : 65 ≤ c.toNat ∧ c.toNat ≤ 90
  · have hv : (c.toNat + 32).isValidChar := Or.inl (by omega)
    have ht : (Char.ofNat (c.toNat + 32)).toNat = c.toNat + 32 :=
      toNat_ofNat_valid _ hv
    simp only [if_pos h, ht]
    rw [if_neg (by omega)]
  · simp [h]

theorem goLower_ne_space {c : Char} (h : c ≠ ' ') : goLower c ≠ ' ' := by
  unfold goLower
  by_cases hb : 65 ≤ c.toNat ∧ c.toNat ≤ 90
  · have hv : (c.toNat + 32).isValidChar := Or.inl (by omega)
    have ht : (Char.ofNat (c.toNat + 32)).toNat = c.toNat + 32 :=
      toNat_ofNat_valid _ hv
    simp only [if_pos hb]
    intro he
    have hn : (Char.ofNat (c.toNat + 32)).toNat = (' ' : Char).toNat := by
      rw [he]
    rw [ht] at hn
    have : (' ' : Char).toNat = 32 := by decide
    omega
  · simpa [hb] using h

theorem mem_replace_map {x : List Char} {c : Char}
    (h : c ∈ replaceSpaces (x.map goLower)) : goLower c = c ∧ c ≠ ' ' := by
  unfold replaceSpaces at h
  rw [List.mem_map] at h
  obtain ⟨a, ha, rfl⟩ := h
  rw [List.mem_map] at ha
  obtain ⟨b, _, rfl⟩ := ha
  by_cases hs : goLower b = ' '
  · simp only [hs, if_pos]
    exact ⟨by decide, by decide⟩
  · simp only [if_neg hs]
    exact ⟨goLower_goLower b, hs⟩

theorem mem_stripBad {l : List Char} {c : Char} (h : c ∈ stripBad l) :
    c ∈ l ∧ c ∉ filenameBadChars := by
  unfold stripBad at h
  rw [List.mem_filter] at h
  exact ⟨h.1, by simpa using h.2⟩

theorem squeezeUnd_head? (b : Char) (rest : List Char) :
    (squeezeUnd (b :: rest)).head? = some b := by
  induction rest generalizing b with
  | nil => rfl
  | cons r rest ih =>
    by_cases h : b = '_' ∧ r = '_'
    · rw [show squeezeUnd (b :: r :: rest) = squeezeUnd (r :: rest) from by
        simp [squeezeUnd, h]]
      rw [ih r, h.1, h.2]
    · simp [squeezeUnd, h]

theorem mem_squeezeUnd : ∀ (l : List Char), ∀ c ∈ squeezeUnd l, c ∈ l := by
  intro l
  induction l using squeezeUnd.induct with
  | case1 => intro c hc; simp [squeezeUnd] at hc
  | case2 d => intro c hc; simpa [squeezeUnd] using hc
  | case3 a b rest hab ih =>
    intro c hc
    rw [show squeezeUnd (a :: b :: rest) = squeezeUnd (b :: rest) from by
      simp [squeezeUnd, hab]] at hc
    exact List.mem_cons_of_mem a (ih c hc)
  | case4 a b rest hab ih =>
    intro c hc
    rw [show squeezeUnd (a :: b :: rest) = a :: squeezeUnd (b :: rest) from by
      simp [squeezeUnd, hab]] at hc
    rcases List.mem_cons.mp hc with h | h
    · exact h ▸ List.mem_cons_self a _
    · exact List.mem_cons_of_mem a (ih c h)

theorem squeezeUnd_chain : ∀ (l : List Char), (squeezeUnd l).Chain' notUU := by
  intro l
  induction l using squeezeUnd.induct with
  | case1 => simp [squeezeUnd]
  | case2 d => simp [squeezeUnd]
  | case3 a b rest hab ih =>
    rw [show squeezeUnd (a :: b :: rest) = squeezeUnd (b :: rest) from by
      simp [squeezeUnd, hab]]
    exact ih
  | case4 a b rest hab ih =>
    rw [show squeezeUnd (a :: b :: rest) = a :: squeezeUnd (b :: rest) from by
      simp [squeezeUnd, hab]]
    rw [List.chain'_cons']
    refine ⟨?_, ih⟩
    intro y hy
    rw [squeezeUnd_head? b rest] at hy
    simp only [Option.mem_def, Option.some.injEq] at hy
    rw [hy] at hab
    exact hab

theorem squeezeUnd_eq_self : ∀ (l : List Char), l.Chain' notUU → squeezeUnd l = l := by
  intro l
  induction l using squeezeUnd.induct with
  | case1 => intro _; rfl
  | case2 d => intro _; rfl
  | case3 a b rest hab ih =>
    intro hch
    rw [List.chain'_cons'] at hch
    have := hch.1 b (by simp)
    exact absurd hab this
  | case4 a b rest hab ih =>
    intro hch
    rw [List.chain'_cons'] at hch
    rw [show squeezeUnd (a :: b :: rest) = a :: squeezeUnd (b :: rest) from by
      simp [squeezeUnd, hab]]
    rw [ih hch.2]

theorem dropWhile_und_head {l : List Char} {c : Char}
    (h : (l.dropWhile (fun c => decide (c = '_'))).head? = some c) : c ≠ '_' := by
  induction l with
  | nil => simp at h
  | cons a t ih =>
    by_cases ha : a = '_'
    · rw [show (a :: t).dropWhile (fun c => decide (c = '_')) =
          t.dropWhile (fun c => decide (c = '_')) from by
        simp [List.dropWhile_cons, ha]] at h
      exact ih h
    · rw [show (a :: t).dropWhile (fun c => decide (c = '_')) = a :: t from by
        simp [List.dropWhile_cons, ha]] at h
      simp only [List.head?_cons, Option.some.injEq] at h
      rw [← h]
      exact ha

theorem dropWhile_und_eq_self {l : List Char} (h : l.head? ≠ some '_') :
    l.dropWhile (fun c => decide (c = '_')) = l := by
  cases l with
  | nil => rfl
  | cons a t =>
    have ha : a ≠ '_' := by
      intro e
      exact h (by rw [e]; rfl)

    simp [List.dropWhile_cons, ha]

theorem trimUnd_sublist (l : List Char) : (trimUnd l).Sublist l := by
  unfold trimUnd
  have h1 : (l.dropWhile (fun c => decide (c = '_'))) <:+ l :=
    List.dropWhile_suffix _
  have h2 : ((l.dropWhile (fun c => decide (c = '_'))).reverse.dropWhile
      (fun c => decide (c = '_'))) <:+
      (l.dropWhile (fun c => decide (c = '_'))).reverse :=
    List.dropWhile_suffix _
  have h3 := (h2.sublist).reverse
  rw [List.reverse_reverse] at h3
  exact h3.trans h1.sublist

theorem notUU_symm {a b : Char} (h : notUU a b) : notUU b a := by
  unfold notUU at h ⊢
  tauto

theorem chain_notUU_reverse {l : List Char} (h : l.Chain' notUU) :
    l.reverse.Chain' notUU := by
  rw [List.chain'_reverse]
  exact h.imp (fun a b hab => notUU_symm hab)

theorem trimUnd_chain {l : List Char} (h : l.Chain' notUU) :
    (trimUnd l).Chain' notUU := by
  unfold trimUnd
  have hm : (l.dropWhile (fun c => decide (c = '_'))).Chain' notUU :=
    h.suffix (List.dropWhile_suffix _)
  have hmr := chain_notUU_reverse hm
  have hr : ((l.dropWhile (fun c => decide (c = '_'))).reverse.dropWhile
      (fun c => decide (c = '_'))).Chain' notUU :=
    hmr.suffix (List.dropWhile_suffix _)
  exact chain_notUU_reverse hr

theorem trimUnd_getLast {l : List Char} {c : Char}
    (h : (trimUnd l).getLast? = some c) : c ≠ '_' := by
  unfold trimUnd at h
  rw [List.getLast?_reverse] at h
  exact dropWhile_und_head h

theorem trimUnd_head {l : List Char} {c : Char}
    (h : (trimUnd l).head? = some c) : c ≠ '_' := by
  unfold trimUnd at h
  obtain ⟨t, ht⟩ := List.dropWhile_suffix
    (l := (l.dropWhile (fun c => decide (c = '_'))).reverse)
    (fun c => decide (c = '_'))
  have hm : l.dropWhile (fun c => decide (c = '_')) =
      ((l.dropWhile (fun c => decide (c = '_'))).reverse.dropWhile
        (fun c => decide (c = '_'))).reverse ++ t.reverse := by
    have := congrArg List.reverse ht
    rw [List.reverse_append, List.reverse_reverse] at this
    exact this.symm
  apply dropWhile_und_head (l := l)
  rw [hm, List.head?_append, h]
  rfl

theorem trimUnd_eq_self {l : List Char} (h1 : l.head? ≠ some '_')
    (h2 : l.getLast? ≠ some '_') : trimUnd l = l := by
  unfold trimUnd
  rw [dropWhile_und_eq_self h1]
  rw [dropWhile_und_eq_self (by rw [List.head?_reverse]; exact h2)]
  exact List.reverse_reverse l

theorem core_mem {x : List Char} {c : Char} (h : c ∈ formatFilenameCore x) :
    goLower c = c ∧ c ≠ ' ' ∧ c ∉ filenameBadChars := by
  unfold formatFilenameCore at h
  have h1 : c ∈ squeezeUnd (stripBad (replaceSpaces (x.map goLower))) :=
    List.Sublist.mem h (trimUnd_sublist _)
  have h2 : c ∈ stripBad (replaceSpaces (x.map goLower)) :=
    mem_squeezeUnd _ c h1
  obtain ⟨h3, hbad⟩ := mem_stripBad h2
  obtain ⟨hl, hs⟩ := mem_replace_map h3
  exact ⟨hl, hs, hbad⟩

theorem core_chain (x : List Char) : (formatFilenameCore x).Chain' notUU :=
  trimUnd_chain (squeezeUnd_chain _)

theorem formatFilename_fixed {y : List Char} (hne : y ≠ [])
    (hmem : ∀ c ∈ y, goLower c = c ∧ c ≠ ' ' ∧ c ∉ filenameBadChars)
    (hch : y.Chain' notUU)
    (hh : y.head? ≠ some '_') (hl : y.getLast? ≠ some '_') :
    formatFilename y = y := by
  have h1 : y.map goLower = y := by
    rw [List.map_congr_left (g := id) (fun a ha => (hmem a ha).1)]
    exact List.map_id y
  have h2 : replaceSpaces y = y := by
    unfold replaceSpaces
    rw [List.map_congr_left (g := id) (fun a ha => by
      simp only [id]
      rw [if_neg (hmem a ha).2.1])]
    exact List.map_id y
  have h3 : stripBad y = y := by
    unfold stripBad
    exact List.filter_eq_self.mpr (fun a ha => by simp [(hmem a ha).2.2])
  have h4 : squeezeUnd y = y := squeezeUnd_eq_self y hch
  have h5 : trimUnd y = y := trimUnd_eq_self hh hl
  have hcore : formatFilenameCore y = y := by
    unfold formatFilenameCore
    rw [h1, h2, h3, h4, h5]
  rw [formatFilename, hcore, if_neg hne]

/-- C7: FormatFilename is idempotent: for every input string x,
FormatFilename(FormatFilename(x)) equals FormatFilename(x). -/
theorem c7_formatFilename_idempotent (x : List Char) :
    formatFilename (formatFilename x) = formatFilename x := by
  by_cases h : formatFilenameCore x = []
  · have hx : formatFilename x = "file".toList := by
      rw [formatFilename, if_pos h]
    rw [hx]
    decide
  · have hx : formatFilename x = formatFilenameCore x := by
      rw [formatFilename, if_neg h]
    rw [hx]
    have hh : (formatFilenameCore x).head? ≠ some '_' := by
      intro he
      unfold formatFilenameCore at he
      exact trimUnd_head he rfl
    have hl : (formatFilenameCore x).getLast? ≠ some '_' := by
      intro he
      unfold formatFilenameCore at he
      exact trimUnd_getLast he rfl
    exact formatFilename_fixed h (fun c hc => core_mem hc) (core_chain x) hh hl

/-- C8 counterexample: Truncate is not total — for the empty string and
max = -1 the byte-length test fails and the slice expression s[:max]
panics (modelled as none), contradicting the claim that Truncate returns
normally for every integer max, including negative ones. -/
theorem c8_truncate_negative_counterexample : Truncate [] (-1) = none := by
  decide

/-- C8 (amended): Truncate returns normally for every string s and every
non-negative max — s unchanged when its byte length is at most max,
otherwise the first max bytes of s followed by the fixed ellipsis marker
"..." — but for every negative max it panics on the slice s[:max]. -/
theorem c8_truncate_total_for_nonneg_max (s : List Char) (max : Int) :
    (0 ≤ max → Truncate s max =
      some (if (s.length : Int) ≤ max then s
        else s.take max.toNat ++ "...".toList)) ∧
    (max < 0 → Truncate s max = none) := by
  constructor
  · intro h
    unfold Truncate
    by_cases h1 : (s.length : Int) ≤ max
    · rw [if_pos h1, if_pos h1]
    · rw [if_neg h1, if_neg h1, if_pos h]
  · intro h
    unfold Truncate
    rw [if_neg (by omega), if_neg (by omega)]

theorem c8_truncate_total_for_nonneg_max_witness :
    Truncate ("ab".toList) 1 = some ("a".toList ++ "...".toList) ∧
    Truncate ("ab".toList) (-2) = none := by
  constructor
  · have h := (c8_truncate_total_for_nonneg_max ("ab".toList) 1).1 (by decide)
    rw [h]
    decide
  · exact (c8_truncate_total_for_nonneg_max ("ab".toList) (-2)).2 (by decide)

/-- C5: merging a caller-supplied jsonx Options value against the
defaults keeps the default for a zero SuccessStatus or ErrorStatus and an
empty ContentType, while the four boolean fields (AllowEmpty,
EnforceContentType, IndentResponse, EscapeHTML) always take the caller's
value — so supplying a value with those booleans left false turns off the
default-enabled AllowEmpty and EnforceContentType, and an
explicitly-false override is indistinguishable from an unset field. -/
theorem c5_merge_options_override (custom : JsonxOptions) :
    (custom.successStatus = 0 →
      (mergeOptions jsonxDefaultOptions [custom]).successStatus =
        jsonxDefaultOptions.successStatus) ∧
    (custom.errorStatus = 0 →
      (mergeOptions jsonxDefaultOptions [custom]).errorStatus =
        jsonxDefaultOptions.errorStatus) ∧
    (custom.contentType = [] →
      (mergeOptions jsonxDefaultOptions [custom]).contentType =
        jsonxDefaultOptions.contentType) ∧
    (mergeOptions jsonxDefaultOptions [custom]).allowEmpty = custom.allowEmpty ∧
    (mergeOptions jsonxDefaultOptions [custom]).enforceContentType =
      custom.enforceContentType ∧
    (mergeOptions jsonxDefaultOptions [custom]).indentResponse =
      custom.indentResponse ∧
    (mergeOptions jsonxDefaultOptions [custom]).escapeHTML = custom.escapeHTML := by
  refine ⟨?_, ?_, ?_, ?_, ?_, ?_, ?_⟩ <;>
    first
    | (intro h
       simp [mergeOptions, jsonxDefaultOptions, h])
    | simp [mergeOptions, jsonxDefaultOptions]

theorem c5_merge_options_override_witness :
    (mergeOptions jsonxDefaultOptions
      [⟨0, 0, [], false, false, none, false, false⟩]).successStatus = 200 ∧
    (mergeOptions jsonxDefaultOptions
      [⟨0, 0, [], false, false, none, false, false⟩]).allowEmpty = false ∧
    (mergeOptions jsonxDefaultOptions
      [⟨0, 0, [], false, false, none, false, false⟩]).enforceContentType = false := by
  have h := c5_merge_options_override ⟨0, 0, [], false, false, none, false, false⟩
  exact ⟨h.1 rfl, h.2.2.2.1, h.2.2.2.2.1⟩

/-- C6: DecodeJSON returns the InvalidTarget error for every nil,
non-pointer or nil-pointer target regardless of the stream's decode
outcome (the target is checked before any byte is read); for a valid
pointer target it returns NoContent exactly on end-of-input before any
token, InvalidJSON exactly on any other parse failure, and nil exactly on
success. -/
theorem c6_decode_json_classification (target : TargetKind) (outcome : DecodeOutcome) :
    (target ≠ TargetKind.validPointer →
      DecodeJSON target outcome = some JsonxErr.invalidTarget) ∧
    (target = TargetKind.validPointer →
      ((DecodeJSON target outcome = some JsonxErr.noContent ↔
          outcome = DecodeOutcome.eofBeforeToken) ∧
       (DecodeJSON target outcome = some JsonxErr.invalidJSON ↔
          outcome = DecodeOutcome.parseFailure) ∧
       (DecodeJSON target outcome = none ↔ outcome = DecodeOutcome.decoded))) := by
  cases target <;> cases outcome <;> simp [DecodeJSON]

theorem c6_decode_json_classification_witness :
    DecodeJSON TargetKind.nonPointer DecodeOutcome.decoded =
      some JsonxErr.invalidTarget ∧
    DecodeJSON TargetKind.validPointer DecodeOutcome.eofBeforeToken =
      some JsonxErr.noContent := by
  constructor
  · exact (c6_decode_json_classification TargetKind.nonPointer
      DecodeOutcome.decoded).1 (by decide)
  · exact ((c6_decode_json_classification TargetKind.validPointer
      DecodeOutcome.eofBeforeToken).2 rfl).1.mpr rfl

/-- Helper: the I/O tail of SaveUploadedFile never produces one of the
three early validation errors. -/
theorem savePhase2_ne_early (file : FileHeader) (opts : FileUploadOptions)
    (env : UploadEnv) :
    (savePhase2 file opts env).result ≠ Except.error UploadErr.emptyFile ∧
    (savePhase2 file opts env).result ≠ Except.error UploadErr.fileTooLarge ∧
    (savePhase2 file opts env).result ≠ Except.error UploadErr.invalidFileType := by
  unfold savePhase2
  dsimp only
  split_ifs <;> simp

/-- Helper: once the three early checks pass, SaveUploadedFile is its I/O
tail. -/
theorem save_eq_phase2 (file : FileHeader) (opts : FileUploadOptions)
    (env : UploadEnv) (hs0 : ¬ file.size = 0)
    (hs1 : ¬ opts.maxSize < file.size)
    (hext : ¬ extOK file.filename opts.allowedExts = false) :
    saveUploadedFile file (some opts) env = savePhase2 file opts env := by
  unfold saveUploadedFile
  rw [if_neg hs0]
  simp only [Option.getD_some]
  rw [if_neg hs1, if_neg hext]

/-- Helper: a successful I/O tail returns exactly the descriptor built
from the original filename, the sanitized derived name, the joined path,
the declared size and the declared MIME type. -/
theorem savePhase2_ok_shape (file : FileHeader) (opts : FileUploadOptions)
    (env : UploadEnv) (sf : SavedFile)
    (h : (savePhase2 file opts env).result = Except.ok sf) :
    sf = ⟨file.filename,
      formatFilename (destFileNameOf opts file.filename env.randomSuffix),
      opts.destinationDir ++ '/' ::
        formatFilename (destFileNameOf opts file.filename env.randomSuffix),
      file.size, file.declaredMime⟩ := by
  unfold savePhase2 at h
  dsimp only at h
  split_ifs at h
  all_goals first
    | (exfalso; revert h; simp; done)
    | (dsimp only at h; exact (Except.ok.inj h).symm)

/-- Helper: with the directory, randomness, open, read and seek steps
succeeding, the I/O tail returns the unsupported-MIME error exactly when
the MIME check fails on the sniffed type. -/
theorem savePhase2_mime (file : FileHeader) (opts : FileUploadOptions)
    (env : UploadEnv) (hmk : env.mkdirOk = true)
    (hrand : opts.randomizeFilename = true → env.randomOk = true)
    (hopen : env.openOk = true) (hread : env.readOk = true)
    (hseek : env.seekOk = true) :
    ((savePhase2 file opts env).result =
        Except.error (UploadErr.unsupportedMime env.sniffedMime) ↔
      mimeOK opts.allowedMimeTypes env.sniffedMime = false) := by
  have hra : ¬ (opts.randomizeFilename = true ∧ env.randomOk = false) := by
    rintro ⟨hr, hro⟩
    rw [hrand hr] at hro
    cases hro
  unfold savePhase2
  dsimp only
  rw [if_neg (by simp [hmk]), if_neg hra, if_neg (by simp [hopen]),
    if_neg (by simp [hread]), if_neg (by simp [hseek])]
  by_cases hmime : mimeOK opts.allowedMimeTypes env.sniffedMime = false
  · rw [if_pos hmime]
    simp [hmime]
  · rw [if_neg hmime]
    split_ifs <;> simp [hmime]

/-- C3: for every configuration with size limit L and file of declared
size s, SaveUploadedFile returns EmptyFile iff s = 0, and (given s > 0)
FileTooLarge iff s > L; in both cases it returns before the directory
creation or file creation is attempted, so a save can only succeed when
0 < s and s ≤ L. -/
theorem c3_size_checks (file : FileHeader) (opts : FileUploadOptions)
    (env : UploadEnv) (hnn : 0 ≤ file.size) :
    ((saveUploadedFile file (some opts) env).result =
        Except.error UploadErr.emptyFile ↔ file.size = 0) ∧
    (0 < file.size →
      ((saveUploadedFile file (some opts) env).result =
          Except.error UploadErr.fileTooLarge ↔ opts.maxSize < file.size)) ∧
    (((saveUploadedFile file (some opts) env).result =
        Except.error UploadErr.emptyFile ∨
      (saveUploadedFile file (some opts) env).result =
        Except.error UploadErr.fileTooLarge) →
      (saveUploadedFile file (some opts) env).dirAttempted = false ∧
      (saveUploadedFile file (some opts) env).fileAttempted = false) ∧
    (∀ sf, (saveUploadedFile file (some opts) env).result = Except.ok sf →
      0 < file.size ∧ file.size ≤ opts.maxSize) := by
  by_cases hs0 : file.size = 0
  · have hr : saveUploadedFile file (some opts) env =
        ⟨Except.error UploadErr.emptyFile, false, false⟩ := by
      unfold saveUploadedFile
      rw [if_pos hs0]
    rw [hr]
    refine ⟨by simp [hs0], ?_, fun _ => ⟨rfl, rfl⟩, fun sf h => by simp at h⟩
    intro hpos
    exact absurd hs0 (by omega)
  · by_cases hs1 : opts.maxSize < file.size
    · have hr : saveUploadedFile file (some opts) env =
          ⟨Except.error UploadErr.fileTooLarge, false, false⟩ := by
        unfold saveUploadedFile
        rw [if_neg hs0]
        simp only [Option.getD_some]
        rw [if_pos hs1]
      rw [hr]
      refine ⟨by simp [hs0], fun _ => by simp [hs1], fun _ => ⟨rfl, rfl⟩,
        fun sf h => by simp at h⟩
    · by_cases hext : extOK file.filename opts.allowedExts = false
      · have hr : saveUploadedFile file (some opts) env =
            ⟨Except.error UploadErr.invalidFileType, false, false⟩ := by
          unfold saveUploadedFile
          rw [if_neg hs0]
          simp only [Option.getD_some]
          rw [if_neg hs1, if_pos hext]
        rw [hr]
        refine ⟨by simp [hs0], fun _ => by simp [hs1], ?_, fun sf h => by simp at h⟩
        rintro (h | h) <;> simp at h
      · rw [save_eq_phase2 file opts env hs0 hs1 hext]
        obtain ⟨ne1, ne2, ne3⟩ := savePhase2_ne_early file opts env
        refine ⟨iff_of_false ne1 hs0, fun _ => iff_of_false ne2 hs1, ?_, ?_⟩
        · rintro (h | h)
          · exact absurd h ne1
          · exact absurd h ne2
        · intro sf h
          exact ⟨by omega, by omega⟩

theorem c3_size_checks_witness :
    0 < fileDoc.size ∧ fileDoc.size ≤ optsPlain.maxSize := by
  have h := c3_size_checks fileDoc optsPlain envAllOk (by decide)
  exact h.2.2.2 savedDoc (by decide)

/-- C4: under a configuration with a non-empty allowed-extension list and
a file passing the size checks, SaveUploadedFile returns InvalidFileType
exactly when the filename's extension (lower-cased, without the leading
dot) matches no list entry under case-insensitive comparison — so every
listed extension in any letter case passes — while a configuration with
an empty extension list never produces InvalidFileType. -/
theorem c4_extension_allow_list (file : FileHeader) (opts : FileUploadOptions)
    (env : UploadEnv) (hs : 0 < file.size) (hm : file.size ≤ opts.maxSize) :
    (opts.allowedExts ≠ [] →
      ((saveUploadedFile file (some opts) env).result =
          Except.error UploadErr.invalidFileType ↔
        ∀ e ∈ opts.allowedExts, goEqualFold (extNoDot file.filename) e = false)) ∧
    (opts.allowedExts = [] →
      (saveUploadedFile file (some opts) env).result ≠
        Except.error UploadErr.invalidFileType) := by
  have hs0 : ¬ file.size = 0 := by omega
  have hs1 : ¬ opts.maxSize < file.size := by omega
  constructor
  · intro hne
    by_cases hext : extOK file.filename opts.allowedExts = false
    · have hr : saveUploadedFile file (some opts) env =
          ⟨Except.error UploadErr.invalidFileType, false, false⟩ := by
        unfold saveUploadedFile
        rw [if_neg hs0]
        simp only [Option.getD_some]
        rw [if_neg hs1, if_pos hext]
      rw [hr]
      have hany : opts.allowedExts.any
          (fun a => goEqualFold (extNoDot file.filename) a) = false := by
        unfold extOK at hext
        rw [if_pos (List.length_pos.mpr hne)] at hext
        exact hext
      refine iff_of_true rfl ?_
      intro e he
      simpa using List.any_eq_false.mp hany e he
    · rw [save_eq_phase2 file opts env hs0 hs1 hext]
      refine iff_of_false (savePhase2_ne_early file opts env).2.2 ?_
      have hextT : extOK file.filename opts.allowedExts = true := by
        cases hx : extOK file.filename opts.allowedExts
        · exact absurd hx hext
        · rfl
      unfold extOK at hextT
      rw [if_pos (List.length_pos.mpr hne)] at hextT
      rw [List.any_eq_true] at hextT
      obtain ⟨e, he, hfold⟩ := hextT
      intro hall
      rw [hall e he] at hfold
      cases hfold
  · intro hempty
    have hext : ¬ extOK file.filename opts.allowedExts = false := by
      simp [extOK, hempty]
    rw [save_eq_phase2 file opts env hs0 hs1 hext]
    exact (savePhase2_ne_early file opts env).2.2

theorem c4_extension_allow_list_witness :
    (saveUploadedFile fileDoc (some optsJpgOnly) envAllOk).result =
      Except.error UploadErr.invalidFileType := by
  have h := c4_extension_allow_list fileDoc optsJpgOnly envAllOk
    (by decide) (by decide)
  exact (h.1 (by decide)).mpr (by decide)

/-- C9: per-field defaults are applied only when the options pointer
itself is nil — a non-nil configuration whose MaxSize field is left at
its zero value makes SaveUploadedFile reject every file of positive
declared size with FileTooLarge, while a nil options pointer behaves
exactly as the default configuration. -/
theorem c9_zero_maxsize_rejects (file : FileHeader) (opts : FileUploadOptions)
    (env : UploadEnv) (h0 : opts.maxSize = 0) (hs : 0 < file.size) :
    (saveUploadedFile file (some opts) env).result =
      Except.error UploadErr.fileTooLarge ∧
    saveUploadedFile file none env =
      saveUploadedFile file (some defaultUploadOptions) env := by
  constructor
  · unfold saveUploadedFile
    rw [if_neg (by omega)]
    simp only [Option.getD_some]
    rw [if_pos (by omega)]
  · rfl

theorem c9_zero_maxsize_rejects_witness :
    (saveUploadedFile fileDoc (some optsZeroMax) envAllOk).result =
      Except.error UploadErr.fileTooLarge :=
  (c9_zero_maxsize_rejects fileDoc optsZeroMax envAllOk rfl (by decide)).1

/-- C10: for a configuration whose AllowedMimeTypes slice is non-nil but
empty, SaveUploadedFile rejects every file reaching the MIME check with
the unsupported-MIME-type error (the allow-list branch is taken for any
non-nil slice and an empty list matches no sniffed type); only a nil
AllowedMimeTypes falls back to the built-in default policy, which rejects
exactly the sniffed types that are not image/ or text/ prefixed and not
application/pdf. -/
theorem c10_mime_allow_list (file : FileHeader) (opts : FileUploadOptions)
    (env : UploadEnv) (hs : 0 < file.size) (hm : file.size ≤ opts.maxSize)
    (hext : extOK file.filename opts.allowedExts = true)
    (hmk : env.mkdirOk = true)
    (hrand : opts.randomizeFilename = true → env.randomOk = true)
    (hopen : env.openOk = true) (hread : env.readOk = true)
    (hseek : env.seekOk = true) :
    (opts.allowedMimeTypes = some [] →
      (saveUploadedFile file (some opts) env).result =
        Except.error (UploadErr.unsupportedMime env.sniffedMime)) ∧
    (opts.allowedMimeTypes = none →
      ((saveUploadedFile file (some opts) env).result =
          Except.error (UploadErr.unsupportedMime env.sniffedMime) ↔
        ("image/".toList.isPrefixOf env.sniffedMime = false ∧
         env.sniffedMime ≠ "application/pdf".toList ∧
         "text/".toList.isPrefixOf env.sniffedMime = false))) := by
  have hs0 : ¬ file.size = 0 := by omega
  have hs1 : ¬ opts.maxSize < file.size := by omega
  have hextne : ¬ extOK file.filename opts.allowedExts = false := by simp [hext]
  rw [save_eq_phase2 file opts env hs0 hs1 hextne]
  have hm2 := savePhase2_mime file opts env hmk hrand hopen hread hseek
  constructor
  · intro hsome
    apply hm2.mpr
    rw [hsome]
    rfl
  · intro hnone
    rw [hm2, hnone]
    unfold mimeOK
    simp only [Bool.or_eq_false_iff, decide_eq_false_iff_not]
    tauto

theorem c10_mime_allow_list_witness :
    (saveUploadedFile fileDoc (some optsEmptyMime) envAllOk).result =
      Except.error (UploadErr.unsupportedMime ("text/plain".toList)) := by
  have h := c10_mime_allow_list fileDoc optsEmptyMime envAllOk
    (by decide) (by decide) (by decide) rfl (fun _ => rfl) rfl rfl rfl
  exact h.1 rfl

theorem goExtAux_suffix : ∀ (rev acc : List Char), goExtAux rev acc <:+ rev.reverse ++ acc := by
  intro rev
  induction rev with
  | nil =>
    intro acc
    simp only [goExtAux, List.reverse_nil, List.nil_append]
    exact List.nil_suffix
  | cons c rest ih =>
    intro acc
    unfold goExtAux
    by_cases h1 : c = '/'
    · rw [if_pos h1]
      exact List.nil_suffix
    · rw [if_neg h1]
      by_cases h2 : c = '.'
      · rw [if_pos h2]
        subst h2
        rw [List.reverse_cons, List.append_assoc]
        exact List.suffix_append _ _
      · rw [if_neg h2]
        have h := ih (c :: acc)
        rw [List.reverse_cons, List.append_assoc]
        simpa using h

theorem goExt_suffix (s : List Char) : goExt s <:+ s := by
  have h := goExtAux_suffix s.reverse []
  simpa using h

theorem take_sub_append {t e s : List Char} (ht : t ++ e = s) :
    s.take (s.length - e.length) ++ e = s := by
  subst ht
  rw [List.length_append, Nat.add_sub_cancel, List.take_left]

/-- Helper: stripping the extension and appending it again recovers the
original filename. -/
theorem goTrimSuffix_ext_append (s : List Char) :
    goTrimSuffix s (goExt s) ++ goExt s = s := by
  unfold goTrimSuffix
  rw [if_pos (goExt_suffix s)]
  obtain ⟨t, ht⟩ := goExt_suffix s
  exact take_sub_append ht

/-- C1 counterexample: under the non-randomized configuration with
filename prefix "up", the file doc.txt is saved under the name doc.txt,
which differs from the claimed
FormatFilename(prefix + base name + original extension). -/
theorem c1_prefix_counterexample :
    (saveUploadedFile fileDoc (some optsPrefixed) envAllOk).result =
      Except.ok savedDoc ∧
    savedDoc.savedName ≠ formatFilename (optsPrefixed.filenamePrefix ++
      goTrimSuffix fileDoc.filename (goExt fileDoc.filename) ++
      goExt fileDoc.filename) := by
  constructor
  · decide
  · decide

/-- C1 (amended): for every file handle and every non-randomized upload
configuration the saved filename is deterministic and equals the
sanitized original filename — FormatFilename of the base name with the
original extension preserved — but the configured filename prefix is not
applied on the non-randomized path. -/
theorem c1_nonrandomized_saved_name (file : FileHeader)
    (opts : FileUploadOptions) (env : UploadEnv)
    (hrand : opts.randomizeFilename = false) :
    ∀ sf, (saveUploadedFile file (some opts) env).result = Except.ok sf →
      sf.savedName = formatFilename file.filename ∧
      sf.savedName = formatFilename
        (goTrimSuffix file.filename (goExt file.filename) ++
          goExt file.filename) := by
  intro sf h
  by_cases hs0 : file.size = 0
  · exfalso
    unfold saveUploadedFile at h
    rw [if_pos hs0] at h
    simp at h
  by_cases hs1 : opts.maxSize < file.size
  · exfalso
    unfold saveUploadedFile at h
    rw [if_neg hs0] at h
    simp only [Option.getD_some] at h
    rw [if_pos hs1] at h
    simp at h
  by_cases hext : extOK file.filename opts.allowedExts = false
  · exfalso
    unfold saveUploadedFile at h
    rw [if_neg hs0] at h
    simp only [Option.getD_some] at h
    rw [if_neg hs1, if_pos hext] at h
    simp at h
  rw [save_eq_phase2 file opts env hs0 hs1 hext] at h
  have hshape := savePhase2_ok_shape file opts env sf h
  subst hshape
  have hdest : destFileNameOf opts file.filename env.randomSuffix =
      file.filename := by
    unfold destFileNameOf
    dsimp only
    rw [if_neg (by simp [hrand])]
  constructor
  · show formatFilename (destFileNameOf opts file.filename env.randomSuffix) =
      formatFilename file.filename
    rw [hdest]
  · show formatFilename (destFileNameOf opts file.filename env.randomSuffix) =
      formatFilename (goTrimSuffix file.filename (goExt file.filename) ++
        goExt file.filename)
    rw [hdest, goTrimSuffix_ext_append]

theorem c1_nonrandomized_saved_name_witness :
    savedDoc.savedName = formatFilename fileDoc.filename ∧
    savedDoc.savedName = formatFilename
      (goTrimSuffix fileDoc.filename (goExt fileDoc.filename) ++
        goExt fileDoc.filename) :=
  c1_nonrandomized_saved_name fileDoc optsPrefixed envAllOk rfl savedDoc (by decide)

/-- Helper: folding the batch loop over a run of successful saves appends
their descriptors to the result slice and their paths to the disk. -/
theorem multiLoop_ok_fold (acc : MultiAcc) (l : List SavedFile) :
    (l.map Except.ok).foldlM multiStep acc =
      some ⟨acc.savedFiles ++ l.map some, acc.disk ++ l.map SavedFile.savedPath⟩ := by
  induction l generalizing acc with
  | nil => simp
  | cons sf t ih =>
    rw [List.map_cons, List.foldlM_cons]
    show (multiStep acc (Except.ok sf) >>= fun x => (t.map Except.ok).foldlM multiStep x) = _
    rw [show multiStep acc (Except.ok sf) =
      some ⟨acc.savedFiles ++ [some sf], acc.disk ++ [sf.savedPath]⟩ from rfl]
    rw [show (some (⟨acc.savedFiles ++ [some sf], acc.disk ++ [sf.savedPath]⟩ : MultiAcc) >>=
        fun x => (t.map Except.ok).foldlM multiStep x) =
      (t.map Except.ok).foldlM multiStep
        ⟨acc.savedFiles ++ [some sf], acc.disk ++ [sf.savedPath]⟩ from rfl]
    rw [ih]
    simp

/-- C2 counterexample: a batch of two empty files makes both saves fail;
at the second failure the cleanup loop dereferences the nil descriptor
appended after the first failure and panics (modelled as none), so no
result slice is returned at all. -/
theorem c2_double_failure_counterexample :
    saveMultipleFormFiles [(fileEmpty, envAllOk), (fileEmpty, envAllOk)] none =
      none := by
  decide

/-- C2 (amended): in a batch whose only failure is a single save, the
loop removes the previously saved files of the batch from disk, appends a
nil descriptor in place of the failed file, keeps going, and the files
saved after the failure remain on disk; and whenever
SaveMultipleFormFiles returns at all on a non-empty batch, the returned
error is nil.  When a second save fails after an earlier one, the cleanup
loop instead panics on the nil entry. -/
theorem c2_single_failure_loop :
    (∀ (pre post : List SavedFile) (e : UploadErr),
      multiLoop (pre.map Except.ok ++ Except.error e :: post.map Except.ok) =
        some ⟨pre.map some ++ none :: post.map some,
          post.map SavedFile.savedPath⟩) ∧
    (∀ (files : List (FileHeader × UploadEnv)) (optsIn : Option FileUploadOptions)
      (out : List (Option SavedFile) × List (List Char) × Option UploadErr),
      files ≠ [] → saveMultipleFormFiles files optsIn = some out →
        out.2.2 = none) := by
  constructor
  · intro pre post e
    unfold multiLoop
    rw [List.foldlM_append]
    rw [multiLoop_ok_fold ⟨[], []⟩ pre]
    show (Except.error e :: post.map Except.ok).foldlM multiStep
        ⟨[] ++ pre.map some, [] ++ pre.map SavedFile.savedPath⟩ = _
    rw [List.nil_append, List.nil_append, List.foldlM_cons]
    have hall : (pre.map some).all Option.isSome = true := by
      rw [List.all_eq_true]
      intro x hx
      obtain ⟨sf, _, rfl⟩ := List.mem_map.mp hx
      rfl
    have hstep : multiStep ⟨pre.map some, pre.map SavedFile.savedPath⟩
        (Except.error e) = some ⟨pre.map some ++ [none], []⟩ := by
      show (if (pre.map some).all Option.isSome then _ else _) = _
      rw [if_pos (by rw [hall])]
      have hfm : (pre.map some).filterMap (fun o => o.map SavedFile.savedPath) =
          pre.map SavedFile.savedPath := by
        rw [List.filterMap_map]
        simp [Function.comp]
      rw [hfm]
      have hfil : (pre.map SavedFile.savedPath).filter
          (fun p => decide (p ∉ pre.map SavedFile.savedPath)) = [] := by
        rw [List.filter_eq_nil_iff]
        intro a ha
        simp [ha]
      rw [hfil]
    rw [hstep]
    show (post.map Except.ok).foldlM multiStep ⟨pre.map some ++ [none], []⟩ = _
    rw [multiLoop_ok_fold]
    simp
  · intro files optsIn out hne hsome
    unfold saveMultipleFormFiles at hsome
    rw [if_neg hne] at hsome
    rcases hml : multiLoop (files.map
        (fun fe => (saveUploadedFile fe.1 optsIn fe.2).result)) with _ | acc
    · rw [hml] at hsome
      cases hsome
    · rw [hml] at hsome
      have := (Option.some.inj hsome).symm
      rw [this]

theorem c2_single_failure_loop_witness :
    multiLoop ([savedDoc].map Except.ok ++ Except.error UploadErr.emptyFile ::
        ([] : List SavedFile).map Except.ok) =
      some ⟨[savedDoc].map some ++ none :: ([] : List SavedFile).map some,
        ([] : List SavedFile).map SavedFile.savedPath⟩ ∧
    (([none], [], (none : Option UploadErr)) :
        List (Option SavedFile) × List (List Char) × Option UploadErr).2.2 = none :=
  ⟨c2_single_failure_loop.1 [savedDoc] [] UploadErr.emptyFile,
   c2_single_failure_loop.2 [(fileEmpty, envAllOk)] none
     ([none], [], none) (by decide) (by decide)⟩

end Bindle
